import Mathlib

/-!
Verification of the core retrieval pipeline of the ai-document-qa backend
(`backend/app/main.py`): page chunking, indexing into the vector collection,
retrieval with dedup + ranking, excerpt trimming, answer post-processing and
the ask endpoint's no-evidence fallback.

Modelling conventions:
- Python strings are lists of characters (`List Char`); slices `s[a:b]`
  become `(l.drop a).take (b - a)`.
- Cosine distances and similarities are rationals (`ℚ`); the code only adds,
  subtracts and compares them, which the rationals model exactly.
- The external collaborators (Chroma query results, the embedding model, the
  OpenAI completion) are inputs to the embedded functions: a query reply is a
  value of `QueryReply`, the embedding model is a function argument, and the
  language model is a function argument whose invocation count is returned.
-/

namespace DocQA

/-- The single-quote character (used inside several literal strings of the
source program). -/
def sq : Char := Char.ofNat 39

/-- Whitespace test used by Python's `str.strip` / `str.split`.  Modelled by
Lean's character whitespace test. -/
def isSpace (c : Char) : Bool := c.isWhitespace

/-- Python `str.strip()`: drop leading and trailing whitespace. -/
def pyStrip (l : List Char) : List Char :=
  ((l.dropWhile isSpace).reverse.dropWhile isSpace).reverse

/-- Python `str.rstrip()`: drop trailing whitespace. -/
def pyRstrip (l : List Char) : List Char :=
  (l.reverse.dropWhile isSpace).reverse

/-- `CHUNK_SIZE = 1000` (module constant of `main.py`). -/
def CHUNK_SIZE : Nat := 1000

/-- `CHUNK_OVERLAP = 200` (module constant of `main.py`). -/
def CHUNK_OVERLAP : Nat := 200

/-- One extracted page: `{"page": i + 1, "text": text}`. -/
structure Page where
  page : Nat
  text : List Char
deriving DecidableEq

/-- One chunk: `{"chunk_index", "page", "text"}`. -/
structure Chunk where
  chunk_index : Nat
  page : Nat
  text : List Char
deriving DecidableEq

/-- The `while start < len(text)` loop of `chunk_pages`, for one page.
Returns the emitted chunks together with the final value of the running
`chunk_index` counter.  The source guards the loop with the module-level
`assert CHUNK_OVERLAP < CHUNK_SIZE`; the conjunct `ov < sz` mirrors that
guarantee (the program never runs the loop without it). -/
def chunkPageLoop (sz ov : Nat) (pageNo : Nat) (text : List Char)
    (start idx : Nat) : List Chunk × Nat :=
  if h : start < text.length ∧ ov < sz then
    let chunk_str := pyStrip ((text.drop start).take sz)
    if chunk_str.isEmpty then
      chunkPageLoop sz ov pageNo text (start + (sz - ov)) idx
    else
      let rest := chunkPageLoop sz ov pageNo text (start + (sz - ov)) (idx + 1)
      (⟨idx, pageNo, chunk_str⟩ :: rest.1, rest.2)
  else
    ([], idx)
termination_by text.length - start
decreasing_by
  · omega
  · omega

/-- The per-page iteration of `chunk_pages`, threading the global
`chunk_index` counter across pages. -/
def chunkPagesFrom : List Page → Nat → List Chunk
  | [], _ => []
  | p :: ps, idx =>
    let r := chunkPageLoop CHUNK_SIZE CHUNK_OVERLAP p.page p.text 0 idx
    r.1 ++ chunkPagesFrom ps r.2

/-- `chunk_pages(pages)`: chunk each page separately with the global window
size and overlap, numbering chunks by a document-global counter starting
at 0. -/
def chunk_pages (pages : List Page) : List Chunk :=
  chunkPagesFrom pages 0

/-- Python `text.replace("•", " ")`: the needle is a single character, so the
replacement is a character map. -/
def replaceBullet (l : List Char) : List Char :=
  l.map fun c => if c = '•' then ' ' else c

/-- Python `str.split()` with no separator: maximal whitespace runs separate
the tokens and no empty token is produced.  `acc` carries the current word
reversed. -/
def splitWsAux : List Char → List Char → List (List Char)
  | [], acc => if acc.isEmpty then [] else [acc.reverse]
  | c :: cs, acc =>
    if isSpace c then
      if acc.isEmpty then splitWsAux cs [] else acc.reverse :: splitWsAux cs []
    else splitWsAux cs (c :: acc)

/-- Python `text.split()`. -/
def pySplit (l : List Char) : List (List Char) := splitWsAux l []

/-- `" ".join(text.replace("•", " ").split())` — the whitespace-collapsed
single-paragraph form used by `trim_excerpt`. -/
def collapseWs (text : List Char) : List Char :=
  List.intercalate [' '] (pySplit (replaceBullet text))

/-- Python `s.rfind(c)` for a single-character needle: the index of the last
occurrence, with `none` standing for Python's `-1`. -/
def pyRfindAux (c : Char) : List Char → Nat → Option Nat
  | [], _ => none
  | x :: xs, i =>
    match pyRfindAux c xs (i + 1) with
    | some j => some j
    | none => if x = c then some i else none

/-- `snippet.rfind(".")`. -/
def pyRfind (c : Char) (l : List Char) : Option Nat := pyRfindAux c l 0

/-- Models `int(max_chars * 0.6)`.  CPython evaluates the product in IEEE-754
double precision and truncates toward zero.  `double(0.6)` is `0.6 - 0.2·2⁻⁵³`,
so the product differs from `3·m/5` by `0.2·m·2⁻⁵³`, which is under half an
ulp for every `m < 2⁴⁹`; hence the truncated result equals `⌊3·m/5⌋` on that
whole range (at the program's only call site, `max_chars = 260`, both are
`156`). -/
def sentenceThreshold (max_chars : Nat) : Nat := 3 * max_chars / 5

/-- `trim_excerpt(text, max_chars)`: collapse whitespace; return as-is when
short enough; otherwise cut at the last period inside a `max_chars + 40`
window when that period sits at or beyond `int(max_chars * 0.6)`, else hard
truncate at `max_chars`; both truncating branches append an ellipsis. -/
def trim_excerpt (text : List Char) (max_chars : Nat) : List Char :=
  if text.isEmpty then []
  else if (collapseWs text).length ≤ max_chars then collapseWs text
  else
    match pyRfind '.' ((collapseWs text).take (max_chars + 40)) with
    | none => pyRstrip ((collapseWs text).take max_chars) ++ ['…']
    | some cut =>
      if cut < sentenceThreshold max_chars then
        pyRstrip ((collapseWs text).take max_chars) ++ ['…']
      else
        pyRstrip (((collapseWs text).take (max_chars + 40)).take (cut + 1)) ++ ['…']

/-- Python `s.replace(pat, rep)` for a non-empty needle: scan left to right,
replacing non-overlapping occurrences.  (Python's empty-needle behaviour —
inserting `rep` between all characters — never occurs in this program, whose
needles are `"**"` and `" - "`; the empty-needle branch here just copies.) -/
def replaceSub (pat rep : List Char) : List Char → List Char
  | [] => []
  | c :: cs =>
    if h : pat.isEmpty then c :: replaceSub pat rep cs
    else if pat.isPrefixOf (c :: cs) then
      rep ++ replaceSub pat rep ((c :: cs).drop pat.length)
    else c :: replaceSub pat rep cs
termination_by l => l.length
decreasing_by
  · simp
  · have : 1 ≤ pat.length := by
      cases pat with
      | nil => simp at h
      | cons p ps => simp
    simp only [List.length_drop, List.length_cons]
    omega

/-- Python `pat in s` (substring containment). -/
def containsSub (pat : List Char) : List Char → Bool
  | [] => pat.isEmpty
  | c :: cs => pat.isPrefixOf (c :: cs) || containsSub pat cs

/-- The answer post-processing of the `/ask` route: strip, remove `"**"`,
and when the text holds an inline `" - "` bullet but no newline-led `"\n- "`
bullet, put every `" - "` item on its own line. -/
def postProcess (raw : List Char) : List Char :=
  let a := pyStrip raw
  let a := replaceSub ('*' :: '*' :: []) [] a
  if containsSub (' ' :: '-' :: ' ' :: []) a &&
      !(containsSub ('\n' :: '-' :: ' ' :: []) a) then
    replaceSub (' ' :: '-' :: ' ' :: []) ('\n' :: '-' :: ' ' :: []) a
  else a

/-- Python `s.split("\n")`: split on newlines, keeping empty pieces. -/
def splitLinesAux : List Char → List Char → List (List Char)
  | [], acc => [acc.reverse]
  | c :: cs, acc =>
    if c = '\n' then acc.reverse :: splitLinesAux cs []
    else splitLinesAux cs (c :: acc)

/-- The lines of a processed answer. -/
def splitLines (l : List Char) : List (List Char) := splitLinesAux l []

/-- Chunk metadata as returned by a vector-index query
(`{"doc_id", "page", "chunk_index"}`; the retrieval code reads the two
position fields with `.get`, hence the `Option`s). -/
structure Meta where
  page : Option Nat
  chunk_index : Option Nat
deriving DecidableEq

/-- The per-query slice of a Chroma reply: `documents[0]`, `metadatas[0]`,
`distances[0]`, positionally aligned.  The vector index is an external
collaborator, so its reply is an input of the embedded retriever. -/
structure QueryReply where
  documents : List (Option (List Char))
  metadatas : List (Option Meta)
  distances : List (Option ℚ)

/-- One scored chunk built by `retrieve_top_k`:
`{"text", "page", "chunk_index", "similarity"}`. -/
structure Retrieved where
  text : List Char
  page : Option Nat
  chunk_index : Option Nat
  similarity : Option ℚ
deriving DecidableEq

/-- `n_results = max(top_k * 3, top_k)` — the over-fetch size requested from
the index (the reply is modelled as an input, so this constant does not
constrain it). -/
def n_results (top_k : Nat) : Nat := max (top_k * 3) top_k

/-- The `for d, m, dist in zip(docs, metas, dists)` loop: skip entries with
empty or missing text, read `page`/`chunk_index` through `(m or {}).get`,
and convert a cosine distance to `similarity = 1 - distance`. -/
def rawRetrieved (reply : QueryReply) : List Retrieved :=
  (reply.documents.zip (reply.metadatas.zip reply.distances)).filterMap
    fun x =>
      match x.1 with
      | none => none
      | some d =>
        if d.isEmpty then none
        else
          some ⟨d, x.2.1.bind Meta.page, x.2.1.bind Meta.chunk_index,
            x.2.2.map fun dist => 1 - dist⟩

/-- The dedup key `(r.get("page"), r.get("chunk_index"))`. -/
def rkey (r : Retrieved) : Option Nat × Option Nat := (r.page, r.chunk_index)

/-- The dedup loop: keep the first occurrence per `(page, chunk_index)` key,
carrying the `seen_keys` set. -/
def dedupeBy : List Retrieved → List (Option Nat × Option Nat) → List Retrieved
  | [], _ => []
  | r :: rs, seen =>
    if rkey r ∈ seen then dedupeBy rs seen
    else r :: dedupeBy rs (rkey r :: seen)

/-- The sort key `x.get("similarity") or 0.0`: a missing similarity counts
as `0`, and Python's `or` also maps an exact `0.0` to `0.0`, so on rationals
this is `getD 0`. -/
def simKey (r : Retrieved) : ℚ := r.similarity.getD 0

/-- The comparison realised by `deduped.sort(key=..., reverse=True)`:
`a` may precede `b` iff `a`'s key is at least `b`'s.  Python's sort is
stable and `reverse=True` keeps equal-key elements in original order, which
is exactly stable `mergeSort` under this comparison. -/
def simLE (a b : Retrieved) : Bool := decide (simKey b ≤ simKey a)

/-- `retrieve_top_k`: dedupe the raw query hits in reply order, sort by
similarity descending (stably), truncate to `top_k`. -/
def retrieve_top_k (top_k : Nat) (reply : QueryReply) : List Retrieved :=
  ((dedupeBy (rawRetrieved reply) []).mergeSort simLE).take top_k

/-- One stored record of the vector collection: id `f"{doc_id}:{chunk_index}"`,
document text, metadata fields, and the embedding vector. -/
structure IndexEntry where
  id : List Char
  doc_id : List Char
  page : Nat
  chunk_index : Nat
  text : List Char
  embedding : List ℚ
deriving DecidableEq

/-- The persistent collection, as the multiset of its records (insertion
order is kept for concreteness; no claim depends on it). -/
abbrev Collection := List IndexEntry

/-- `collection.delete(where={"doc_id": doc_id})`. -/
def deleteWhereDocId (doc_id : List Char) (col : Collection) : Collection :=
  col.filter fun e => !(e.doc_id == doc_id)

/-- Result of `index_doc_into_chroma`: either `{"error": msg}` or
`{"pages": ..., "chunks": ...}`. -/
inductive IndexResult where
  | error (msg : List Char)
  | ok (pages chunks : Nat)
deriving DecidableEq

/-- The `NoExtractableText` error message. -/
def noExtractableTextMsg : List Char :=
  "No extractable text found (scanned PDF). OCR not supported in v1.".toList

/-- The `NoValidChunks` error message. -/
def noValidChunksMsg : List Char := "No valid text chunks.".toList

/-- The chunk id `f"{doc_id}:{c.chunk_index}"`. -/
def chunkId (doc_id : List Char) (c : Chunk) : List Char :=
  doc_id ++ ':' :: (Nat.repr c.chunk_index).toList

/-- `index_doc_into_chroma(doc_id, path)` after page extraction: join page
texts, fail on whitespace-only text or zero chunks, otherwise purge the
doc's prior vectors and add the freshly embedded chunk batch.  The embedding
model is the abstract batch function `embed`. -/
def index_doc_into_chroma (doc_id : List Char) (pages : List Page)
    (embed : List (List Char) → List (List ℚ)) (col : Collection) :
    Collection × IndexResult :=
  if (pyStrip (List.intercalate ['\n'] (pages.map Page.text))).isEmpty then
    (col, .error noExtractableTextMsg)
  else if (chunk_pages pages).isEmpty then
    (col, .error noValidChunksMsg)
  else
    (deleteWhereDocId doc_id col ++
        ((chunk_pages pages).zip (embed ((chunk_pages pages).map Chunk.text))).map
          (fun ce => ⟨chunkId doc_id ce.1, doc_id, ce.1.page, ce.1.chunk_index,
            ce.1.text, ce.2⟩),
      .ok pages.length (chunk_pages pages).length)

/-- The `/ask` request schema `AskRequest` (`top_k: int = 5`). -/
structure AskRequest where
  doc_id : List Char
  question : List Char
  top_k : Nat
deriving DecidableEq

/-- Request parsing: an omitted `top_k` takes the schema default `5`. -/
def mkAskRequest (doc_id question : List Char) (top_k : Option Nat) : AskRequest :=
  ⟨doc_id, question, top_k.getD 5⟩

/-- Python string interpolation of an optional integer (`None` prints as
`"None"`). -/
def pyShowOptNat : Option Nat → List Char
  | none => "None".toList
  | some n => (Nat.repr n).toList

/-- The canned no-evidence answer
`"I don't know based on the provided document."`. -/
def fallbackAnswer : List Char :=
  "I don".toList ++ [sq] ++ "t know based on the provided document.".toList

/-- The fixed instruction block of `build_prompt`. -/
def promptInstructions : List Char :=
  "You are a careful, precise assistant.\nAnswer the user".toList ++ [sq] ++
  ("s question using ONLY the context below.\n" ++
    "Prefer either a short paragraph or a simple list where each item is on its own line.\n" ++
    "Write in plain text only: do NOT use Markdown formatting such as **bold**.\n" ++
    "Do NOT include citations like [chunk X] or (page X) inside the answer.\n" ++
    "If the answer is not in the context, say: \"").toList ++
  fallbackAnswer ++
  "\".\n\nWhen listing multiple items, put each item on its own line starting with ".toList ++
  [sq] ++ "- ".toList ++ [sq] ++
  ". Avoid cramming many items into one long sentence.\n\n".toList

/-- `build_prompt(question, retrieved_chunks)`: instructions, the question,
then each chunk rendered `(page P) text` joined by a rule delimiter. -/
def build_prompt (question : List Char) (retrieved_chunks : List Retrieved) :
    List Char :=
  promptInstructions ++
  "Question: ".toList ++ question ++ "\n\n".toList ++
  "Context:\n".toList ++
  List.intercalate ("\n\n---\n\n".toList)
    (retrieved_chunks.map fun r =>
      "(page ".toList ++ pyShowOptNat r.page ++ ") ".toList ++ r.text) ++
  "\n".toList

/-- A `{"page", "excerpt"}` evidence item of the ask response. -/
structure Evidence where
  page : Option Nat
  excerpt : List Char
deriving DecidableEq

/-- The `/ask` response payload. -/
structure AskResponse where
  doc_id : List Char
  question : List Char
  answer : List Char
  sources : List Nat
  evidence : List Evidence
deriving DecidableEq

/-- `sorted(set(r["page"] for r in retrieved if r.get("page") is not None))`. -/
def pagesUsed (retrieved : List Retrieved) : List Nat :=
  ((retrieved.filterMap Retrieved.page).dedup).mergeSort fun a b => decide (a ≤ b)

/-- The `/ask` route: retrieve, fall back on an empty result, otherwise run
the model on the built prompt and post-process.  `model` is the abstract
completion service; the second component counts its invocations.  (The
upstream-failure branch re-raises as an HTTP 502 and is outside these
claims.) -/
def ask (payload : AskRequest) (reply : QueryReply)
    (model : List Char → List Char) : AskResponse × Nat :=
  if (retrieve_top_k payload.top_k reply).isEmpty then
    (⟨payload.doc_id, payload.question, fallbackAnswer, [], []⟩, 0)
  else
    (⟨payload.doc_id, payload.question,
        postProcess (model (build_prompt payload.question
          (retrieve_top_k payload.top_k reply))),
        pagesUsed (retrieve_top_k payload.top_k reply),
        ((retrieve_top_k payload.top_k reply).take 2).map fun r =>
          ⟨r.page, trim_excerpt r.text 260⟩⟩, 1)

theorem dropWhile_no_space (l : List Char) (h : ∀ c ∈ l, isSpace c = false) :
    l.dropWhile isSpace = l := by
  cases l with
  | nil => rfl
  | cons a l =>
    have ha : isSpace a = false := h a (List.mem_cons_self a l)
    simp [List.dropWhile_cons, ha]

theorem pyStrip_no_space (l : List Char) (h : ∀ c ∈ l, isSpace c = false) :
    pyStrip l = l := by
  unfold pyStrip
  rw [dropWhile_no_space l h]
  rw [dropWhile_no_space l.reverse (by intro c hc; exact h c (List.mem_reverse.mp hc))]
  exact List.reverse_reverse l

theorem chunkPageLoop_stop (sz ov pageNo : Nat) (text : List Char)
    (start idx : Nat) (h : text.length ≤ start) :
    chunkPageLoop sz ov pageNo text start idx = ([], idx) := by
  rw [chunkPageLoop]
  rw [dif_neg]
  omega

theorem chunkPageLoop_skip (sz ov pageNo : Nat) (text : List Char)
    (start idx : Nat) (h1 : start < text.length) (h2 : ov < sz)
    (h3 : (pyStrip ((text.drop start).take sz)).isEmpty = true) :
    chunkPageLoop sz ov pageNo text start idx =
      chunkPageLoop sz ov pageNo text (start + (sz - ov)) idx := by
  rw [chunkPageLoop]
  rw [dif_pos ⟨h1, h2⟩]
  simp only [h3, if_true]

theorem chunkPageLoop_emit (sz ov pageNo : Nat) (text : List Char)
    (start idx : Nat) (h1 : start < text.length) (h2 : ov < sz)
    (h3 : (pyStrip ((text.drop start).take sz)).isEmpty = false) :
    chunkPageLoop sz ov pageNo text start idx =
      (⟨idx, pageNo, pyStrip ((text.drop start).take sz)⟩ ::
          (chunkPageLoop sz ov pageNo text (start + (sz - ov)) (idx + 1)).1,
        (chunkPageLoop sz ov pageNo text (start + (sz - ov)) (idx + 1)).2) := by
  rw [chunkPageLoop]
  rw [dif_pos ⟨h1, h2⟩]
  simp only [h3, Bool.false_eq_true, if_false]

/-- The per-page loop numbers its chunks consecutively from `idx` and returns
the incremented counter. -/
theorem chunkPageLoop_indices (sz ov pageNo : Nat) (text : List Char) :
    ∀ start idx : Nat,
      (chunkPageLoop sz ov pageNo text start idx).1.map Chunk.chunk_index =
        List.range' idx (chunkPageLoop sz ov pageNo text start idx).1.length ∧
      (chunkPageLoop sz ov pageNo text start idx).2 =
        idx + (chunkPageLoop sz ov pageNo text start idx).1.length := by
  intro start idx
  induction start, idx using chunkPageLoop.induct sz ov pageNo text with
  | case1 start idx hlt cs hempty ih =>
    rw [chunkPageLoop_skip sz ov pageNo text start idx hlt.1 hlt.2 hempty]
    exact ih
  | case2 start idx hlt cs hne ih =>
    rw [chunkPageLoop_emit sz ov pageNo text start idx hlt.1 hlt.2
      ((Bool.not_eq_true _) ▸ hne)]
    simp only [List.map_cons, List.length_cons]
    refine ⟨?_, ?_⟩
    · rw [List.range'_succ, ih.1]
    · have h2 := ih.2
      omega
  | case3 start idx hstop =>
    rw [chunkPageLoop]
    rw [dif_neg hstop]
    simp

/-- Across pages, `chunkPagesFrom` numbers all emitted chunks consecutively
from its counter argument. -/
theorem chunkPagesFrom_indices (pages : List Page) :
    ∀ idx : Nat,
      (chunkPagesFrom pages idx).map Chunk.chunk_index =
        List.range' idx (chunkPagesFrom pages idx).length := by
  induction pages with
  | nil => intro idx; rfl
  | cons p ps ih =>
    intro idx
    have h := chunkPageLoop_indices CHUNK_SIZE CHUNK_OVERLAP p.page p.text 0 idx
    simp only [chunkPagesFrom, List.map_append, List.length_append]
    rw [h.1, h.2, ih (idx + (chunkPageLoop CHUNK_SIZE CHUNK_OVERLAP p.page p.text 0 idx).1.length)]
    rw [List.range'_append_1]
    congr 1
    omega

theorem window_nonempty_strip {t : List Char} (hno : ∀ c ∈ t, isSpace c = false)
    (start n : Nat) (hlen : 0 < ((t.drop start).take n).length) :
    pyStrip ((t.drop start).take n) = (t.drop start).take n ∧
      ((t.drop start).take n).isEmpty = false := by
  have hmem : ∀ c ∈ (t.drop start).take n, isSpace c = false := by
    intro c hc
    exact hno c ((List.drop_sublist start t).subset (List.mem_of_mem_take hc))
  refine ⟨pyStrip_no_space _ hmem, ?_⟩
  rw [List.isEmpty_eq_false]
  exact (List.length_pos).mp hlen

/-- **C2**: on a single 1200-character page with no whitespace and the
configured `chunk_size = 1000`, `chunk_overlap = 200`, the chunker emits
exactly the two windows `[0:1000]` and `[800:1200]`; in general the window
starts at offset 0, advances by `chunk_size - chunk_overlap` per step, and
stops once the start reaches or exceeds the page text length. -/
theorem chunk_pages_window_law :
    (∀ t : List Char, t.length = 1200 → (∀ c ∈ t, isSpace c = false) →
      chunk_pages [⟨1, t⟩] =
        [⟨0, 1, t.take 1000⟩, ⟨1, 1, (t.drop 800).take 400⟩]) ∧
    (∀ sz ov pageNo : Nat, ∀ text : List Char, ∀ start idx : Nat,
      text.length ≤ start →
      chunkPageLoop sz ov pageNo text start idx = ([], idx)) ∧
    (∀ sz ov pageNo : Nat, ∀ text : List Char, ∀ start idx : Nat,
      start < text.length → ov < sz →
      chunkPageLoop sz ov pageNo text start idx =
        (if (pyStrip ((text.drop start).take sz)).isEmpty then
            chunkPageLoop sz ov pageNo text (start + (sz - ov)) idx
          else
            (⟨idx, pageNo, pyStrip ((text.drop start).take sz)⟩ ::
                (chunkPageLoop sz ov pageNo text (start + (sz - ov)) (idx + 1)).1,
              (chunkPageLoop sz ov pageNo text (start + (sz - ov)) (idx + 1)).2))) := by
  refine ⟨?_, ?_, ?_⟩
  · intro t hlen hno
    have hw0 := window_nonempty_strip hno 0 1000
      (by rw [List.length_take, List.length_drop]; omega)
    have hw1 := window_nonempty_strip hno 800 1000
      (by rw [List.length_take, List.length_drop]; omega)
    have hstep0 : (0 : Nat) + (1000 - 200) = 800 := by omega
    have e0 := chunkPageLoop_emit 1000 200 1 t 0 0 (by omega) (by omega)
      (hw0.1.symm ▸ hw0.2)
    have e1 := chunkPageLoop_emit 1000 200 1 t 800 1 (by omega) (by omega)
      (hw1.1.symm ▸ hw1.2)
    have e2 := chunkPageLoop_stop 1000 200 1 t (800 + (1000 - 200)) 2 (by omega)
    show chunkPagesFrom [⟨1, t⟩] 0 = _
    have hcs : CHUNK_SIZE = 1000 := rfl
    have hco : CHUNK_OVERLAP = 200 := rfl
    simp only [chunkPagesFrom, hcs, hco]
    rw [e0]
    rw [hstep0] at *
    rw [e1, e2]
    simp only [List.append_nil]
    rw [hw0.1, hw1.1, List.drop_zero]
    have h800 : (t.drop 800).take 1000 = (t.drop 800).take 400 := by
      rw [List.take_of_length_le (by rw [List.length_drop]; omega),
        List.take_of_length_le (by rw [List.length_drop]; omega)]
    rw [h800]
  · intro sz ov pageNo text start idx h
    exact chunkPageLoop_stop sz ov pageNo text start idx h
  · intro sz ov pageNo text start idx h1 h2
    by_cases hcs : (pyStrip ((text.drop start).take sz)).isEmpty = true
    · rw [chunkPageLoop_skip sz ov pageNo text start idx h1 h2 hcs, if_pos hcs]
    · have hcs' : (pyStrip ((text.drop start).take sz)).isEmpty = false :=
        (Bool.not_eq_true _) ▸ hcs
      rw [chunkPageLoop_emit sz ov pageNo text start idx h1 h2 hcs']
      rw [if_neg hcs]

/-- **C2 witness**: the scenario instantiated at the literal page
`replicate 1200 'A'`. -/
theorem chunk_pages_window_law_witness :
    chunk_pages [⟨1, List.replicate 1200 'A'⟩] =
      [⟨0, 1, (List.replicate 1200 'A').take 1000⟩,
        ⟨1, 1, ((List.replicate 1200 'A').drop 800).take 400⟩] :=
  chunk_pages_window_law.1 (List.replicate 1200 'A')
    (List.length_replicate 1200 'A')
    (by
      intro c hc
      rw [(List.mem_replicate.mp hc).2]
      decide)

/-- **C7**: chunk indices across a whole document are exactly
`0, 1, 2, …` in emission order (unique, zero-based, increasing by one, not
reset per page), and a whitespace-only window emits nothing and leaves the
index unchanged while the window start still advances. -/
theorem chunk_index_monotone :
    (∀ pages : List Page,
      (chunk_pages pages).map Chunk.chunk_index =
        List.range (chunk_pages pages).length) ∧
    (∀ sz ov pageNo : Nat, ∀ text : List Char, ∀ start idx : Nat,
      start < text.length → ov < sz →
      (pyStrip ((text.drop start).take sz)).isEmpty = true →
      chunkPageLoop sz ov pageNo text start idx =
        chunkPageLoop sz ov pageNo text (start + (sz - ov)) idx) := by
  constructor
  · intro pages
    rw [chunk_pages, chunkPagesFrom_indices pages 0, List.range_eq_range']
  · exact chunkPageLoop_skip

/-- **C7 witness**: a three-space page window is skipped without emitting a
chunk or bumping the counter, and a concrete two-page document gets indices
`[0, 1, 2]`. -/
theorem chunk_index_monotone_witness :
    chunkPageLoop 1000 200 1 (List.replicate 3 ' ') 0 7 =
      chunkPageLoop 1000 200 1 (List.replicate 3 ' ') (0 + (1000 - 200)) 7 :=
  chunk_index_monotone.2 1000 200 1 (List.replicate 3 ' ') 0 7
    (by decide) (by decide) (by decide)

theorem pyRstrip_length_le (l : List Char) : (pyRstrip l).length ≤ l.length := by
  unfold pyRstrip
  rw [List.length_reverse]
  calc (l.reverse.dropWhile isSpace).length ≤ l.reverse.length :=
        (List.dropWhile_sublist isSpace).length_le
    _ = l.length := List.length_reverse l

theorem pyRfindAux_lt (c : Char) :
    ∀ (l : List Char) (i j : Nat), pyRfindAux c l i = some j → j < i + l.length := by
  intro l
  induction l with
  | nil => intro i j h; simp [pyRfindAux] at h
  | cons x xs ih =>
    intro i j h
    rw [pyRfindAux] at h
    cases hrec : pyRfindAux c xs (i + 1) with
    | some j' =>
      rw [hrec] at h
      have := ih (i + 1) j' hrec
      simp only [Option.some.injEq] at h
      simp only [List.length_cons]
      omega
    | none =>
      rw [hrec] at h
      by_cases hx : x = c
      · rw [if_pos hx] at h
        simp only [Option.some.injEq] at h
        simp only [List.length_cons]
        omega
      · rw [if_neg hx] at h
        exact absurd h (by simp)

theorem pyRfind_lt (c : Char) (l : List Char) (j : Nat)
    (h : pyRfind c l = some j) : j < l.length := by
  have := pyRfindAux_lt c l 0 j h
  omega

/-- **C3 (amended)**: the output of `trim_excerpt` is bounded by
`max_chars + 41`, not `max_chars + ~5`: the hard-truncate branch is bounded
by `max_chars + 1` (ellipsis included), but the sentence-boundary branch may
keep the whole `max_chars + 40` search window plus the ellipsis. -/
theorem trim_excerpt_length_bound (text : List Char) (max_chars : Nat) :
    (trim_excerpt text max_chars).length ≤ max_chars + 41 := by
  unfold trim_excerpt
  by_cases h0 : text.isEmpty
  · simp [h0]
  · rw [if_neg h0]
    by_cases h1 : (collapseWs text).length ≤ max_chars
    · rw [if_pos h1]
      omega
    · rw [if_neg h1]
      cases hfind : pyRfind '.' ((collapseWs text).take (max_chars + 40)) with
      | none =>
        simp only [hfind, List.length_append, List.length_cons, List.length_nil]
        have hr := pyRstrip_length_le ((collapseWs text).take max_chars)
        have hl := List.length_take max_chars (collapseWs text)
        omega
      | some cut =>
        simp only [hfind]
        by_cases h2 : cut < sentenceThreshold max_chars
        · rw [if_pos h2]
          simp only [List.length_append, List.length_cons, List.length_nil]
          have hr := pyRstrip_length_le ((collapseWs text).take max_chars)
          have hl := List.length_take max_chars (collapseWs text)
          omega
        · rw [if_neg h2]
          simp only [List.length_append, List.length_cons, List.length_nil]
          have hcut := pyRfind_lt '.' ((collapseWs text).take (max_chars + 40)) cut hfind
          have hr := pyRstrip_length_le
            (((collapseWs text).take (max_chars + 40)).take (cut + 1))
          have hl := List.length_take (cut + 1) ((collapseWs text).take (max_chars + 40))
          have hl2 := List.length_take (max_chars + 40) (collapseWs text)
          omega

/-- **C3 counterexample**: with `max_chars = 10` and a 51-character input
whose last period sits at index 49 (inside the `max_chars + 40` search
window, past the `int(max_chars * 0.6) = 6` threshold), the sentence-boundary
branch returns all 51 characters — far above `max_chars + 5`. -/
theorem trim_excerpt_exceeds_small_constant :
    (trim_excerpt ("aaaaaaaaaaaaaaaaaaaaaaaaaaaaaaaaaaaaaaaaaaaaaaaaa.z".toList) 10).length
        = 51 ∧
      ¬ ((trim_excerpt ("aaaaaaaaaaaaaaaaaaaaaaaaaaaaaaaaaaaaaaaaaaaaaaaaa.z".toList) 10).length
        ≤ 10 + 5) := by
  constructor
  · decide
  · decide

/-- **C9**: whenever the whitespace-collapsed form of the input fits in
`max_chars`, `trim_excerpt` returns exactly that collapsed form, with no
ellipsis appended. -/
theorem trim_excerpt_short_input (text : List Char) (max_chars : Nat)
    (h : (collapseWs text).length ≤ max_chars) :
    trim_excerpt text max_chars = collapseWs text := by
  unfold trim_excerpt
  by_cases h0 : text.isEmpty
  · rw [if_pos h0]
    rw [List.isEmpty_iff.mp h0]
    rfl
  · rw [if_neg h0, if_pos h]

/-- **C9 witness**: a concrete input with internal whitespace and a bullet
glyph, collapsed and returned unchanged at the default `max_chars = 260`. -/
theorem trim_excerpt_short_input_witness :
    trim_excerpt ("alpha  beta\n• gamma".toList) 260 =
      collapseWs ("alpha  beta\n• gamma".toList) :=
  trim_excerpt_short_input ("alpha  beta\n• gamma".toList) 260 (by decide)

/-- **C4 counterexample**: post-processing `"Item1 - Item2 - Item3"` yields
three lines, but the first line is `"Item1"`, which does not start with
`"- "` — so not every line starts with the bullet marker. -/
theorem postProcess_first_line_unbulleted :
    (splitLines (postProcess ("Item1 - Item2 - Item3".toList))).length = 3 ∧
      ¬ (∀ ln ∈ splitLines (postProcess ("Item1 - Item2 - Item3".toList)),
          (('-' :: ' ' :: []).isPrefixOf ln) = true) := by
  constructor
  · simp [postProcess, replaceSub, containsSub, splitLines, splitLinesAux,
      pyStrip, isSpace]
  · simp [postProcess, replaceSub, containsSub, splitLines, splitLinesAux,
      pyStrip, isSpace]

/-- **C4 (amended)**: post-processing `"Item1 - Item2 - Item3"` produces
exactly the three lines `"Item1"`, `"- Item2"`, `"- Item3"`: every `" - "`
separator becomes a newline-led `"- "` bullet, so the second and third lines
start with `"- "` while the first item keeps its original unprefixed text. -/
theorem postProcess_inline_bullets :
    splitLines (postProcess ("Item1 - Item2 - Item3".toList)) =
      ["Item1".toList, "- Item2".toList, "- Item3".toList] := by
  simp [postProcess, replaceSub, containsSub, splitLines, splitLinesAux,
    pyStrip, isSpace]

theorem dedupeBy_spec (l : List Retrieved) :
    ∀ seen : List (Option Nat × Option Nat),
      (∀ r ∈ dedupeBy l seen, rkey r ∉ seen) ∧
      (dedupeBy l seen).Pairwise (fun a b => rkey a ≠ rkey b) := by
  induction l with
  | nil => intro seen; simp [dedupeBy]
  | cons r rs ih =>
    intro seen
    rw [dedupeBy]
    by_cases hmem : rkey r ∈ seen
    · rw [if_pos hmem]
      exact ih seen
    · rw [if_neg hmem]
      have h := ih (rkey r :: seen)
      refine ⟨?_, ?_⟩
      · intro x hx
        rcases List.mem_cons.mp hx with hx | hx
        · rw [hx]; exact hmem
        · intro hin
          exact h.1 x hx (List.mem_cons_of_mem _ hin)
      · rw [List.pairwise_cons]
        refine ⟨?_, h.2⟩
        intro x hx heq
        exact h.1 x hx (heq ▸ List.mem_cons_self _ _)

theorem dedupeBy_sublist (l : List Retrieved) :
    ∀ seen, (dedupeBy l seen).Sublist l := by
  induction l with
  | nil => intro seen; simp [dedupeBy]
  | cons r rs ih =>
    intro seen
    rw [dedupeBy]
    by_cases hmem : rkey r ∈ seen
    · rw [if_pos hmem]
      exact (ih seen).cons r
    · rw [if_neg hmem]
      exact (ih (rkey r :: seen)).cons₂ r

/-- Every survivor of the dedup pass is the first occurrence of its key in
the raw hit list. -/
theorem dedupeBy_first_occurrence (l : List Retrieved) :
    ∀ seen, ∀ r ∈ dedupeBy l seen,
      l.find? (fun x => decide (rkey x = rkey r)) = some r := by
  induction l with
  | nil => intro seen r hr; simp [dedupeBy] at hr
  | cons a rs ih =>
    intro seen r hr
    rw [dedupeBy] at hr
    by_cases hmem : rkey a ∈ seen
    · rw [if_pos hmem] at hr
      have hne : rkey a ≠ rkey r := by
        intro heq
        exact (dedupeBy_spec rs seen).1 r hr (heq ▸ hmem)
      rw [List.find?_cons_of_neg _ (by simpa using hne)]
      exact ih seen r hr
    · rw [if_neg hmem] at hr
      rcases List.mem_cons.mp hr with hr | hr
      · rw [hr] at *
        rw [List.find?_cons_of_pos _ (by simp)]
      · have hne : rkey a ≠ rkey r := by
          intro heq
          exact (dedupeBy_spec rs (rkey a :: seen)).1 r hr
            (heq ▸ List.mem_cons_self _ _)
        rw [List.find?_cons_of_neg _ (by simpa using hne)]
        exact ih (rkey a :: seen) r hr

theorem simLE_trans (a b c : Retrieved) :
    simLE a b = true → simLE b c = true → simLE a c = true := by
  unfold simLE
  intro h1 h2
  exact decide_eq_true (le_trans (of_decide_eq_true h2) (of_decide_eq_true h1))

theorem simLE_total (a b : Retrieved) : (simLE a b || simLE b a) = true := by
  unfold simLE
  rcases le_total (simKey a) (simKey b) with h | h
  · simp [decide_eq_true h]
  · simp [decide_eq_true h]

/-- Stability: sorting does not reorder entries that share a similarity key. -/
theorem mergeSort_filter_simKey (l : List Retrieved) (v : ℚ) :
    (l.mergeSort simLE).filter (fun r => decide (simKey r = v)) =
      l.filter (fun r => decide (simKey r = v)) := by
  have hpw : (l.filter (fun r => decide (simKey r = v))).Pairwise
      (fun a b => simLE a b = true) := by
    apply List.pairwise_of_forall_mem_list
    intro a ha b hb
    have hav : simKey a = v := of_decide_eq_true (List.mem_filter.mp ha).2
    have hbv : simKey b = v := of_decide_eq_true (List.mem_filter.mp hb).2
    unfold simLE
    rw [hav, hbv]
    simp
  have hsub : (l.filter (fun r => decide (simKey r = v))).Sublist (l.mergeSort simLE) :=
    List.sublist_mergeSort simLE_trans simLE_total hpw (List.filter_sublist l)
  have hsub2 := hsub.filter (fun r => decide (simKey r = v))
  rw [List.filter_filter] at hsub2
  have hidem : (l.filter fun a =>
      decide (simKey a = v) && decide (simKey a = v)) =
      l.filter (fun r => decide (simKey r = v)) := by
    apply List.filter_congr
    intro x _
    exact Bool.and_self _
  rw [hidem] at hsub2
  exact (hsub2.eq_of_length
    (((List.mergeSort_perm l simLE).filter _).length_eq).symm).symm

/-- **C1**: for every `top_k` and query reply, the retrieval result has at
most `top_k` entries, no two entries share a `(page, chunk_index)` key, the
(`or 0.0`-coalesced) similarity values are non-increasing, entries of equal
similarity keep their dedup-order (index relevance) order, and each entry is
the first raw hit bearing its key. -/
theorem retrieve_dedup_rank_law (top_k : Nat) (reply : QueryReply) :
    (retrieve_top_k top_k reply).length ≤ top_k ∧
    (retrieve_top_k top_k reply).Pairwise (fun a b => rkey a ≠ rkey b) ∧
    (retrieve_top_k top_k reply).Pairwise (fun a b => simKey b ≤ simKey a) ∧
    (∀ v : ℚ,
      ((retrieve_top_k top_k reply).filter
          (fun r => decide (simKey r = v))).Sublist
        ((dedupeBy (rawRetrieved reply) []).filter
          (fun r => decide (simKey r = v)))) ∧
    (∀ r ∈ retrieve_top_k top_k reply,
      (rawRetrieved reply).find? (fun x => decide (rkey x = rkey r)) = some r) := by
  refine ⟨?_, ?_, ?_, ?_, ?_⟩
  · rw [retrieve_top_k, List.length_take]
    omega
  · apply List.Pairwise.sublist (List.take_sublist _ _)
    exact ((List.mergeSort_perm (dedupeBy (rawRetrieved reply) []) simLE).pairwise_iff
      (fun h => (Ne.symm h))).mpr (dedupeBy_spec (rawRetrieved reply) []).2
  · apply List.Pairwise.sublist (List.take_sublist _ _)
    exact (List.sorted_mergeSort simLE_trans simLE_total
      (dedupeBy (rawRetrieved reply) [])).imp (fun h => of_decide_eq_true h)
  · intro v
    have h := (List.take_sublist top_k
      ((dedupeBy (rawRetrieved reply) []).mergeSort simLE)).filter
      (fun r => decide (simKey r = v))
    rw [mergeSort_filter_simKey] at h
    exact h
  · intro r hr
    apply dedupeBy_first_occurrence (rawRetrieved reply) [] r
    exact List.mem_mergeSort.mp ((List.take_sublist _ _).subset hr)

/-- **C1 witness**: a concrete reply with a duplicated `(page, chunk_index)`
hit; the deduped, ranked result keeps the first occurrence and stays within
`top_k = 2`. -/
theorem retrieve_dedup_rank_law_witness :
    (retrieve_top_k 2
        ⟨[some ("ab".toList), some ("cd".toList)],
          [some ⟨some 1, some 0⟩, some ⟨some 1, some 0⟩],
          [some (1/10), some (2/10)]⟩).length ≤ 2 ∧
      (rawRetrieved
        ⟨[some ("ab".toList), some ("cd".toList)],
          [some ⟨some 1, some 0⟩, some ⟨some 1, some 0⟩],
          [some (1/10), some (2/10)]⟩).find?
          (fun x => decide (rkey x =
            rkey ⟨"ab".toList, some 1, some 0, some (9/10)⟩)) =
        some ⟨"ab".toList, some 1, some 0, some (9/10)⟩ :=
  ⟨(retrieve_dedup_rank_law 2 _).1,
    (retrieve_dedup_rank_law 2 _).2.2.2.2 ⟨"ab".toList, some 1, some 0, some (9/10)⟩
      (by
        simp [retrieve_top_k, rawRetrieved, dedupeBy, rkey]
        norm_num)⟩

/-- **C6**: whitespace-only extracted text yields the `NoExtractableText`
error, a chunkless document yields the `NoValidChunks` error, and on every
error result the collection is returned exactly as it was — no delete and no
add happened for that `doc_id`. -/
theorem index_error_leaves_collection (doc_id : List Char) (pages : List Page)
    (embed : List (List Char) → List (List ℚ)) (col : Collection) :
    ((pyStrip (List.intercalate ['\n'] (pages.map Page.text))).isEmpty = true →
      index_doc_into_chroma doc_id pages embed col =
        (col, .error noExtractableTextMsg)) ∧
    ((pyStrip (List.intercalate ['\n'] (pages.map Page.text))).isEmpty = false →
      (chunk_pages pages).isEmpty = true →
      index_doc_into_chroma doc_id pages embed col =
        (col, .error noValidChunksMsg)) ∧
    (∀ msg, (index_doc_into_chroma doc_id pages embed col).2 = .error msg →
      (index_doc_into_chroma doc_id pages embed col).1 = col) := by
  refine ⟨?_, ?_, ?_⟩
  · intro h
    rw [index_doc_into_chroma, if_pos h]
  · intro h1 h2
    rw [index_doc_into_chroma, if_neg (by rw [h1]; simp), if_pos h2]
  · intro msg
    rw [index_doc_into_chroma]
    by_cases h1 : (pyStrip (List.intercalate ['\n'] (pages.map Page.text))).isEmpty
    · rw [if_pos h1]
      intro _
      rfl
    · rw [if_neg h1]
      by_cases h2 : (chunk_pages pages).isEmpty
      · rw [if_pos h2]
        intro _
        rfl
      · rw [if_neg h2]
        intro habs
        exact absurd habs (by simp)

/-- **C6 witness**: indexing a pageless document into a one-record collection
reports `NoExtractableText` and hands the collection back untouched. -/
theorem index_error_leaves_collection_witness :
    index_doc_into_chroma ("d".toList) [] (fun _ => [])
        [⟨"x:0".toList, "x".toList, 1, 0, "t".toList, []⟩] =
      ([⟨"x:0".toList, "x".toList, 1, 0, "t".toList, []⟩],
        .error noExtractableTextMsg) :=
  (index_error_leaves_collection ("d".toList) [] (fun _ => [])
    [⟨"x:0".toList, "x".toList, 1, 0, "t".toList, []⟩]).1 (by decide)

theorem deleteWhereDocId_append (doc_id : List Char) (a b : Collection) :
    deleteWhereDocId doc_id (a ++ b) =
      deleteWhereDocId doc_id a ++ deleteWhereDocId doc_id b :=
  List.filter_append a b

theorem deleteWhereDocId_idem (doc_id : List Char) (col : Collection) :
    deleteWhereDocId doc_id (deleteWhereDocId doc_id col) =
      deleteWhereDocId doc_id col := by
  unfold deleteWhereDocId
  rw [List.filter_filter]
  apply List.filter_congr
  intro x _
  exact Bool.and_self _

/-- **C8**: indexing the same `doc_id` with the same pages twice leaves the
collection exactly as after one indexing — in particular the same record ids
and the same record count, not doubled — because the prior vectors of that
`doc_id` are purged before the new batch is added. -/
theorem reindex_idempotent (doc_id : List Char) (pages : List Page)
    (embed : List (List Char) → List (List ℚ)) (col : Collection) :
    (index_doc_into_chroma doc_id pages embed
        (index_doc_into_chroma doc_id pages embed col).1).1 =
      (index_doc_into_chroma doc_id pages embed col).1 ∧
    (index_doc_into_chroma doc_id pages embed
        (index_doc_into_chroma doc_id pages embed col).1).1.map IndexEntry.id =
      (index_doc_into_chroma doc_id pages embed col).1.map IndexEntry.id ∧
    (index_doc_into_chroma doc_id pages embed
        (index_doc_into_chroma doc_id pages embed col).1).1.length =
      (index_doc_into_chroma doc_id pages embed col).1.length := by
  have main : (index_doc_into_chroma doc_id pages embed
      (index_doc_into_chroma doc_id pages embed col).1).1 =
      (index_doc_into_chroma doc_id pages embed col).1 := by
    by_cases h1 : (pyStrip (List.intercalate ['\n'] (pages.map Page.text))).isEmpty
    · rw [index_doc_into_chroma, if_pos h1, index_doc_into_chroma, if_pos h1]
    · by_cases h2 : (chunk_pages pages).isEmpty
      · rw [index_doc_into_chroma, if_neg h1, if_pos h2,
          index_doc_into_chroma, if_neg h1, if_pos h2]
      · rw [index_doc_into_chroma, if_neg h1, if_neg h2,
          index_doc_into_chroma, if_neg h1, if_neg h2]
        show deleteWhereDocId doc_id (deleteWhereDocId doc_id col ++ _) ++ _ = _
        rw [deleteWhereDocId_append, deleteWhereDocId_idem]
        have hnew : deleteWhereDocId doc_id
            (((chunk_pages pages).zip
              (embed ((chunk_pages pages).map Chunk.text))).map
                (fun ce => ⟨chunkId doc_id ce.1, doc_id, ce.1.page,
                  ce.1.chunk_index, ce.1.text, ce.2⟩)) = [] := by
          unfold deleteWhereDocId
          rw [List.filter_eq_nil_iff]
          intro e he
          rcases List.mem_map.mp he with ⟨ce, _, hce⟩
          rw [← hce]
          simp
        rw [hnew, List.append_nil]
  exact ⟨main, by rw [main], by rw [main]⟩

/-- **C5**: whenever retrieval comes back empty, `/ask` answers with exactly
the canned fallback sentence, empty `sources`, empty `evidence`, and the
language model is invoked zero times. -/
theorem ask_no_evidence_fallback (payload : AskRequest) (reply : QueryReply)
    (model : List Char → List Char)
    (h : retrieve_top_k payload.top_k reply = []) :
    ask payload reply model =
      (⟨payload.doc_id, payload.question, fallbackAnswer, [], []⟩, 0) := by
  rw [ask, if_pos (by rw [h]; rfl)]

/-- **C5 witness**: an empty index reply (e.g. an unknown `doc_id`) under the
default `top_k`. -/
theorem ask_no_evidence_fallback_witness :
    ask (mkAskRequest ("d".toList) ("q".toList) none) ⟨[], [], []⟩
        (fun _ => "ignored".toList) =
      (⟨"d".toList, "q".toList, fallbackAnswer, [], []⟩, 0) :=
  ask_no_evidence_fallback (mkAskRequest ("d".toList) ("q".toList) none)
    ⟨[], [], []⟩ (fun _ => "ignored".toList)
    (by simp [retrieve_top_k, rawRetrieved, dedupeBy])

/-- **C10**: an `/ask` request with `top_k` omitted is parsed with the schema
default `top_k = 5`, and the retrieval list — the exact list `ask` hands to
`build_prompt` — then never exceeds 5 chunks. -/
theorem ask_default_top_k (doc_id question : List Char) :
    (mkAskRequest doc_id question none).top_k = 5 ∧
    ∀ reply : QueryReply,
      (retrieve_top_k (mkAskRequest doc_id question none).top_k reply).length ≤ 5 := by
  refine ⟨rfl, ?_⟩
  intro reply
  rw [show (mkAskRequest doc_id question none).top_k = 5 from rfl,
    retrieve_top_k, List.length_take]
  omega

end DocQA
